import Mathlib

/-!
Verification of the resilient API access layer of the
aws-amazon-product-research-pipeline repository.

The Lean definitions below are shallow embeddings of the Python source:

* `EnhancedAPIRateLimiter.wait_if_needed`
  (src/.history/modules/apis/sp_api_20250826195002.py, lines 45-87):
  the sliding-window rate limiter, modelled over rational time with
  `time.sleep` taken as exact advancement of the clock.

* `AmazonSPAPI.refresh_token_if_needed` (same file, lines 286-301):
  the credential-refresh lifecycle.

* `AmazonSPAPI.make_request` (same file, lines 303-386) and
  `BaseAPI.make_request` (src/modules/apis/base_api.py, lines 32-127):
  the retrying request executors, modelled as functions from a scripted
  environment (the HTTP response each dispatched attempt would receive)
  to a trace of observable events (credential checks, rate-gate calls,
  dispatches, sleeps, token refreshes) plus a terminal outcome.

* `AmazonProductAPI.get_pricing_data_batch` (same file, lines 839-961)
  and `AmazonProductAPI.parse_pricing_batch_response` (lines 963-1165):
  the batch orchestrator and the per-batch response parser.  The
  provider-specific extraction of price fields from a response body
  (lines 1035-1161) is abstracted as a function on the non-ASIN fields
  of a result record, which is faithful because that code never writes
  the `ASIN` key; the per-chunk retry loop of the orchestrator is
  abstracted to its terminal outcome per chunk.

* `BaseKeepaAPI._call_api` (src/modules/apis/keepa_api.py, lines 151-239)
  and `ProductAnalyzer.get_product_data` (lines 646-662):
  the Keepa token-budget guard.
-/

/-! ## Batch partitioning (get_pricing_data_batch, lines 853-859)

`asin_batches = [asins[i:i+batch_size] for i in range(0, len(asins), batch_size)]`
after `batch_size = min(batch_size, 20)`.  For a step `b ≥ 1` this list
comprehension is exactly the recursive chunking below. -/

/-- Split a list into consecutive chunks of `b` elements (the final chunk
may be shorter).  Matches Python slicing with step `b` for `b ≥ 1`. -/
def chunkList (b : Nat) : List α → List (List α)
  | [] => []
  | x :: xs => (x :: xs.take (b - 1)) :: chunkList b (xs.drop (b - 1))
termination_by l => l.length
decreasing_by simp [List.length_drop]; omega

/-- Chunking of `get_pricing_data_batch`: it first caps the batch size at 20
(`batch_size = min(batch_size, 20)`, line 854) and then chunks. -/
def asinBatches (asins : List α) (batchSize : Nat) : List (List α) :=
  chunkList (min batchSize 20) asins

theorem chunkList_flatten (b : Nat) (l : List α) :
    (chunkList b l).flatten = l := by
  match l with
  | [] => simp [chunkList]
  | x :: xs =>
    rw [chunkList]
    have := chunkList_flatten b (xs.drop (b - 1))
    simp [this, List.take_append_drop]
termination_by l.length
decreasing_by simp [List.length_drop]; omega

theorem chunkList_length_le (b : Nat) (l : List α) :
    ∀ c ∈ chunkList b l, c.length ≤ max b 1 := by
  match l with
  | [] => simp [chunkList]
  | x :: xs =>
    intro c hc
    rw [chunkList] at hc
    rcases List.mem_cons.mp hc with rfl | hc
    · simp only [List.length_cons]
      have := List.length_take_le (b - 1) xs
      omega
    · exact chunkList_length_le b (xs.drop (b - 1)) c hc
termination_by l.length
decreasing_by simp [List.length_drop]; omega

theorem chunkList_nonfinal_length (b : Nat) (hb : 0 < b) (l : List α) :
    ∀ i, i + 1 < (chunkList b l).length →
      ((chunkList b l).get? i).map List.length = some b := by
  match l with
  | [] => simp [chunkList]
  | x :: xs =>
    intro i hi
    cases i with
    | zero =>
      -- the tail of the chunk list is nonempty, hence `xs.drop (b-1)` is
      -- nonempty, hence `xs.take (b-1)` has the full length `b-1`
      rw [chunkList] at hi ⊢
      simp only [List.length_cons] at hi
      have hrest : chunkList b (xs.drop (b - 1)) ≠ [] := by
        intro h
        rw [h] at hi
        simp at hi
      have hxs : xs.drop (b - 1) ≠ [] := by
        intro h
        rw [h] at hrest
        simp [chunkList] at hrest
      have hlen : b - 1 ≤ xs.length := by
        by_contra h
        push_neg at h
        exact hxs (List.drop_eq_nil_of_le (by omega))
      simp [List.length_take]
      omega
    | succ j =>
      rw [chunkList] at hi ⊢
      simp only [List.length_cons, Nat.succ_lt_succ_iff] at hi
      simp only [List.get?]
      exact chunkList_nonfinal_length b hb (xs.drop (b - 1)) j hi
termination_by l.length
decreasing_by all_goals (simp [List.length_drop]; omega)

/-! ## Pricing batch response parsing (parse_pricing_batch_response, lines 963-1165) -/

/-- The non-`ASIN` fields of one pricing result record, with the defaults
from lines 995-1010 of `parse_pricing_batch_response` (the all-default
record is the placeholder appended for absent / errored / bodyless
response elements). -/
structure PriceFields where
  amazonPrice : Option ℚ := none        -- 'Amazon価格'
  cartPrice : Option ℚ := none          -- 'カート価格'
  cartShipping : Option ℚ := none       -- 'カート価格送料'
  cartPoints : Option ℚ := none         -- 'カート価格のポイント'
  cartSellerId : Option String := none  -- 'カートセラーID'
  fbaLowest : Option ℚ := none          -- 'FBA最安値'
  fbaLowestPoints : Option ℚ := none    -- 'FBA最安値のポイント'
  selfLowest : Option ℚ := none         -- '自己発送最安値'
  selfLowestShipping : Option ℚ := none -- '自己発送最安値の送料'
  selfLowestPoints : Option ℚ := none   -- '自己発送最安値のポイント'
  amazonPresent : Bool := false         -- 'Amazon本体有無1'
  fbaCount : Nat := 0                   -- 'FBA数'
  selfCount : Nat := 0                  -- '自己発送数'
  newTotalSellers : Nat := 0            -- '新品総出品者数'
  fbaLowestSellers : Nat := 0           -- 'FBA最安値出品者数'
  selfLowestSellers : Nat := 0          -- '自己発送最安値出品者数'
  deriving Repr, DecidableEq

/-- One per-item result of `parse_pricing_batch_response`: the `ASIN` key
(set once at record creation, line 994, and never rewritten by the body
parsing at lines 1035-1161) plus the remaining fields. -/
structure PricingResult where
  asin : String
  fields : PriceFields
  deriving Repr, DecidableEq

/-- One element of the `"responses"` array of the batch payload, as read
by the parser: an optional `statusCode` (line 1022 guards on key
presence) and an optional `body` (line 1028) of provider-specific
content `β`. -/
structure PResp (β : Type) where
  statusCode : Option Nat
  body : Option β
  deriving Repr, DecidableEq

/-- A Python-dict assignment `d[key] = value` on a map modelled as a
lookup function. -/
def dictInsert (m : String → Option γ) (p : String × γ) :
    String → Option γ :=
  fun x => if x = p.1 then some p.2 else m x

/-- The dict built by a sequence of assignments, later ones overwriting
earlier ones. -/
def dictOfPairs (init : String → Option γ) (pairs : List (String × γ)) :
    String → Option γ :=
  pairs.foldl dictInsert init

/-- The `asin_to_response` dictionary of lines 984-989: iterate over the
response elements, pairing `responses[i]` with `asins[i]` for
`i < len(asins)` (elements beyond that are only warned about, line 989);
a later assignment to the same key overwrites an earlier one, exactly as
for a Python dict. -/
def asinToResponse (responses : List (PResp β)) (asins : List String) :
    String → Option (PResp β) :=
  dictOfPairs (fun _ => none) (List.zip asins responses)

/-- Core of `parse_pricing_batch_response` for a payload that does have a
`"responses"` key (lines 981-1165): one record per input ASIN, in input
order; the placeholder (all-default fields) when the element is absent
(line 1014), carries a non-200 `statusCode` (line 1022), or lacks a
`body` (line 1028); otherwise the fields extracted from the body by
`enrich` (the provider-specific parsing of lines 1035-1161, applied to
the freshly initialised default record). -/
def parsePricingCore (enrich : β → PriceFields → PriceFields)
    (responses : List (PResp β)) (asins : List String) : List PricingResult :=
  asins.map fun asin =>
    match asinToResponse responses asins asin with
    | none => ⟨asin, {}⟩
    | some resp =>
      match resp.statusCode with
      | some c =>
        if c ≠ 200 then ⟨asin, {}⟩
        else
          match resp.body with
          | none => ⟨asin, {}⟩
          | some b => ⟨asin, enrich b {}⟩
      | none =>
        match resp.body with
        | none => ⟨asin, {}⟩
        | some b => ⟨asin, enrich b {}⟩

/-- A decoded batch payload: `parse_pricing_batch_response` first checks
`"responses" in response_data` (line 977) and returns the empty list when
the key is missing. -/
structure PricingPayload (β : Type) where
  responses : Option (List (PResp β))
  deriving Repr, DecidableEq

/-- Function `parse_pricing_batch_response` (lines 963-1165). -/
def parsePricingBatchResponse (enrich : β → PriceFields → PriceFields)
    (payload : PricingPayload β) (asins : List String) : List PricingResult :=
  match payload.responses with
  | none => []
  | some rs => parsePricingCore enrich rs asins

/-! ## Batch orchestrator (get_pricing_data_batch, lines 839-961)

For each chunk the orchestrator runs a retry loop (lines 869-942, at most
5 tries over 429s, 403-expiry refreshes, other errors and exceptions).
Here each chunk's loop is abstracted to its terminal outcome: either the
decoded payload of the eventually successful POST, or failure after the
retries are exhausted (`batch_success` still false at line 945).  On
success the parsed records are appended (`results.extend`, line 932); on
failure the code only logs (lines 945-947) and proceeds to the next
chunk — nothing is appended for the failed chunk's items. -/

/-- Terminal outcome of one chunk's retry loop. -/
inductive ChunkOutcome (β : Type) where
  /-- the `while` loop ended with `batch_success == False` (line 945) -/
  | failed : ChunkOutcome β
  /-- a 200 response was decoded (lines 929-935) -/
  | success (payload : PricingPayload β) : ChunkOutcome β
  deriving Repr, DecidableEq

/-- Function `get_pricing_data_batch` (lines 839-961): chunk the input, run each
chunk to its terminal outcome, extend `results` with the parsed records
of successful chunks, and keep nothing for failed chunks. -/
def getPricingDataBatch (enrich : β → PriceFields → PriceFields)
    (asins : List String) (batchSize : Nat)
    (outcome : Nat → ChunkOutcome β) : List PricingResult :=
  (((asinBatches asins batchSize).enum).map fun p =>
    match outcome p.1 with
    | .failed => []
    | .success payload => parsePricingBatchResponse enrich payload p.2).flatten


theorem dictOfPairs_cons {γ : Type} (init : String → Option γ)
    (p : String × γ) (ps : List (String × γ)) :
    dictOfPairs init (p :: ps) = dictOfPairs (dictInsert init p) ps := rfl

theorem dictOfPairs_not_mem {γ : Type} (pairs : List (String × γ))
    (init : String → Option γ) (x : String)
    (hx : x ∉ pairs.map Prod.fst) :
    dictOfPairs init pairs x = init x := by
  induction pairs generalizing init with
  | nil => rfl
  | cons p ps ih =>
    simp only [List.map_cons, List.mem_cons, not_or] at hx
    rw [dictOfPairs_cons, ih (dictInsert init p) hx.2]
    simp [dictInsert, hx.1]

theorem dictOfPairs_zip_lookup {β : Type} :
    ∀ (asins : List String) (rs : List (PResp β))
      (init : String → Option (PResp β)) (i : Nat) (a : String),
      asins.Nodup → asins.get? i = some a →
      dictOfPairs init (List.zip asins rs) a =
        if i < rs.length then rs.get? i else init a := by
  intro asins
  induction asins with
  | nil => intro rs init i a _ ha; simp at ha
  | cons x xs ih =>
    intro rs init i a hnd ha
    rw [List.nodup_cons] at hnd
    cases rs with
    | nil =>
      simp only [List.zip_nil_right, List.length_nil, Nat.not_lt_zero,
        if_false]
      rfl
    | cons r rs' =>
      cases i with
      | zero =>
        simp only [List.get?] at ha
        injection ha with ha
        subst ha
        rw [List.zip_cons_cons, dictOfPairs_cons]
        have hnot : x ∉ (List.zip xs rs').map Prod.fst := by
          intro hmem
          simp only [List.mem_map] at hmem
          obtain ⟨p, hp, hfst⟩ := hmem
          exact hnd.1 (hfst ▸ (List.of_mem_zip hp).1)
        rw [dictOfPairs_not_mem _ _ _ hnot]
        simp [dictInsert]
      | succ j =>
        simp only [List.get?] at ha
        rw [List.zip_cons_cons, dictOfPairs_cons]
        rw [ih rs' (dictInsert init (x, r)) j a hnd.2 ha]
        have hax : a ≠ x := by
          intro h
          subst h
          exact hnd.1 (List.get?_mem ha)
        simp only [List.length_cons, Nat.succ_lt_succ_iff, List.get?]
        by_cases hj : j < rs'.length
        · simp [hj]
        · simp [hj, dictInsert, hax]

theorem asinToResponse_lookup {β : Type} (responses : List (PResp β))
    (asins : List String) (hnd : asins.Nodup) (i : Nat) (a : String)
    (ha : asins.get? i = some a) :
    asinToResponse responses asins a = responses.get? i := by
  rw [asinToResponse,
    dictOfPairs_zip_lookup asins responses (fun _ => none) i a hnd ha]
  by_cases hi : i < responses.length
  · simp [hi]
  · rw [if_neg hi, List.get?_eq_none.mpr (by omega)]

/-- The per-ASIN step of the loop at lines 992-1163, as a function of the
`asin_to_response` lookup. -/
def parseOne (enrich : β → PriceFields → PriceFields)
    (m : String → Option (PResp β)) (asin : String) : PricingResult :=
  match m asin with
  | none => ⟨asin, {}⟩
  | some resp =>
    match resp.statusCode with
    | some c =>
      if c ≠ 200 then ⟨asin, {}⟩
      else
        match resp.body with
        | none => ⟨asin, {}⟩
        | some b => ⟨asin, enrich b {}⟩
    | none =>
      match resp.body with
      | none => ⟨asin, {}⟩
      | some b => ⟨asin, enrich b {}⟩

theorem parsePricingCore_eq_map (enrich : β → PriceFields → PriceFields)
    (responses : List (PResp β)) (asins : List String) :
    parsePricingCore enrich responses asins =
      asins.map (parseOne enrich (asinToResponse responses asins)) := rfl

theorem parseOne_asin (enrich : β → PriceFields → PriceFields)
    (m : String → Option (PResp β)) (asin : String) :
    (parseOne enrich m asin).asin = asin := by
  rcases h : m asin with _ | ⟨sc, body⟩
  · simp [parseOne, h]
  · rcases sc with _ | c
    · rcases body with _ | b <;> simp [parseOne, h]
    · rcases body with _ | b <;> by_cases hc : c = 200 <;>
        simp [parseOne, h, hc]

theorem parsePricingCore_map_asin (enrich : β → PriceFields → PriceFields)
    (responses : List (PResp β)) (asins : List String) :
    (parsePricingCore enrich responses asins).map PricingResult.asin =
      asins := by
  rw [parsePricingCore_eq_map, List.map_map]
  conv_rhs => rw [show asins = asins.map id from (List.map_id asins).symm]
  exact List.map_congr_left fun a _ => parseOne_asin enrich _ a

theorem zip_take_length (asins : List String) (rs : List (PResp β)) :
    List.zip asins (rs.take asins.length) = List.zip asins rs := by
  induction asins generalizing rs with
  | nil => simp
  | cons x xs ih =>
    cases rs with
    | nil => simp
    | cons r rs' =>
      simp only [List.length_cons, List.take_succ_cons, List.zip_cons_cons]
      rw [ih]

/-- C8: `get_pricing_data_batch` partitions the input into consecutive
order-preserving chunks bounded by `min(batchSize, 20)`; every non-final
chunk has exactly that length (for a positive requested batch size; a
zero step would raise `ValueError` in Python's `range`). -/
theorem get_pricing_data_batch_partitions (asins : List String)
    (batchSize : Nat) (hb : 0 < batchSize) :
    (asinBatches asins batchSize).flatten = asins ∧
    (∀ c ∈ asinBatches asins batchSize,
      c.length ≤ min batchSize 20) ∧
    (∀ i, i + 1 < (asinBatches asins batchSize).length →
      ((asinBatches asins batchSize).get? i).map List.length =
        some (min batchSize 20)) := by
  have hb' : 0 < min batchSize 20 := by omega
  refine ⟨chunkList_flatten _ _, ?_, ?_⟩
  · intro c hc
    have := chunkList_length_le (min batchSize 20) asins c hc
    omega
  · exact chunkList_nonfinal_length _ hb' asins

/-- Witness for C8 at `asins = ["A", "B", "C"]`, `batchSize = 2`. -/
theorem get_pricing_data_batch_partitions_witness :
    0 < 2 ∧
    ((asinBatches ["A", "B", "C"] 2).flatten = ["A", "B", "C"] ∧
    (∀ c ∈ asinBatches ["A", "B", "C"] 2, c.length ≤ min 2 20) ∧
    (∀ i, i + 1 < (asinBatches ["A", "B", "C"] 2).length →
      ((asinBatches ["A", "B", "C"] 2).get? i).map List.length =
        some (min 2 20))) :=
  ⟨by decide, get_pricing_data_batch_partitions ["A", "B", "C"] 2 (by decide)⟩

/-- C10 (counterexample): the per-position placeholder rule fails on a
duplicated input ASIN.  With `asins = ["A", "A"]` and response elements
`[non-200, 200-with-body]`, the dict loop of lines 984-989 overwrites
`asin_to_response["A"]` with the second element, so the position-0 ASIN
— whose own response element carries `statusCode = 404` — receives the
enriched record instead of the all-default placeholder. -/
theorem parse_pricing_batch_response_duplicate_asin :
    ((([⟨some 404, none⟩, ⟨some 200, some ()⟩] : List (PResp Unit)).get? 0
      ).map PResp.statusCode = some (some 404)) ∧
    (parsePricingCore (fun (_ : Unit) f => { f with fbaCount := 1 })
        [⟨some 404, none⟩, ⟨some 200, some ()⟩] ["A", "A"]).get? 0 =
      some ⟨"A", { fbaCount := 1 }⟩ ∧
    (⟨"A", { fbaCount := 1 }⟩ : PricingResult) ≠ ⟨"A", {}⟩ := by
  refine ⟨rfl, rfl, by decide⟩

/-- C10 (amended): for a payload with a `"responses"` array,
`parse_pricing_batch_response` returns exactly one record per input
ASIN, in input order, each with its `ASIN` field equal to that input
ASIN, and response elements beyond the number of input ASINs are
ignored — for every input list.  Each position's record is obtained by
looking its ASIN value up in the `asin_to_response` dict, in which later
positional pairings overwrite earlier ones; consequently the
per-position placeholder rule (absent element, non-200 `statusCode`, or
missing `body` ⇒ all-default placeholder) holds whenever the input
ASINs are pairwise distinct, while every occurrence of a duplicated
ASIN is rendered from the last response element paired with it. -/
theorem parse_pricing_batch_response_results {β : Type}
    (enrich : β → PriceFields → PriceFields) (responses : List (PResp β))
    (asins : List String) :
    ((parsePricingCore enrich responses asins).map PricingResult.asin =
      asins) ∧
    (parsePricingCore enrich responses asins).length = asins.length ∧
    (parsePricingCore enrich responses asins =
      parsePricingCore enrich (responses.take asins.length) asins) ∧
    (∀ i a, asins.get? i = some a →
      (parsePricingCore enrich responses asins).get? i =
        some (parseOne enrich (asinToResponse responses asins) a)) ∧
    (asins.Nodup → ∀ i a, asins.get? i = some a →
      (responses.length ≤ i →
        (parsePricingCore enrich responses asins).get? i =
          some ⟨a, {}⟩) ∧
      (∀ r, responses.get? i = some r →
        ((∃ c, r.statusCode = some c ∧ c ≠ 200) ∨ r.body = none) →
        (parsePricingCore enrich responses asins).get? i =
          some ⟨a, {}⟩)) := by
  have hget : ∀ i a, asins.get? i = some a →
      (parsePricingCore enrich responses asins).get? i =
        some (parseOne enrich (asinToResponse responses asins) a) := by
    intro i a ha
    rw [parsePricingCore_eq_map, List.get?_map, ha]
    rfl
  refine ⟨parsePricingCore_map_asin enrich responses asins, ?_, ?_,
    hget, ?_⟩
  · rw [parsePricingCore_eq_map, List.length_map]
  · rw [parsePricingCore_eq_map, parsePricingCore_eq_map]
    unfold asinToResponse
    rw [zip_take_length]
  · intro hnd i a ha
    have hlook := asinToResponse_lookup responses asins hnd i a ha
    constructor
    · intro hlen
      rw [hget i a ha]
      have hnone : responses[i]? = none := List.getElem?_eq_none hlen
      simp [parseOne, hlook, hnone]
    · intro r hr hbad
      rw [List.get?_eq_getElem?] at hr
      rw [hget i a ha]
      rcases hbad with ⟨c, hc, hc200⟩ | hbody
      · simp [parseOne, hlook, hr, hc, hc200]
      · rcases hsc : r.statusCode with _ | c
        · simp [parseOne, hlook, hr, hsc, hbody]
        · by_cases hc : c = 200 <;>
            simp [parseOne, hlook, hr, hsc, hbody, hc]

/-- Witness for C10 (amended) at two distinct ASINs, one errored element
and one absent element, with the value-lookup and placeholder conjuncts
discharged at position 0. -/
theorem parse_pricing_batch_response_results_witness :
    (parsePricingCore (fun (_ : Unit) f => f)
        [⟨some 404, none⟩] ["A1", "B2"]).get? 0 =
      some (parseOne (fun (_ : Unit) f => f)
        (asinToResponse [⟨some 404, none⟩] ["A1", "B2"]) "A1") ∧
    (["A1", "B2"] : List String).Nodup ∧
    (parsePricingCore (fun (_ : Unit) f => f)
        [⟨some 404, none⟩] ["A1", "B2"]).get? 0 = some ⟨"A1", {}⟩ ∧
    (parsePricingCore (fun (_ : Unit) f => f)
        [⟨some 404, none⟩] ["A1", "B2"]).get? 1 = some ⟨"B2", {}⟩ :=
  ⟨(parse_pricing_batch_response_results (fun (_ : Unit) f => f)
      [⟨some 404, none⟩] ["A1", "B2"]).2.2.2.1 0 "A1" rfl,
    by decide,
    ((parse_pricing_batch_response_results (fun (_ : Unit) f => f)
      [⟨some 404, none⟩] ["A1", "B2"]).2.2.2.2 (by decide) 0 "A1" rfl).2
      ⟨some 404, none⟩ rfl (Or.inl ⟨404, rfl, by decide⟩),
    ((parse_pricing_batch_response_results (fun (_ : Unit) f => f)
      [⟨some 404, none⟩] ["A1", "B2"]).2.2.2.2 (by decide) 1 "B2" rfl).1
      (by decide)⟩

/-- C1 (amended): `get_pricing_data_batch` returns, in order, exactly one
record per item of each chunk whose retry loop succeeded with a payload
containing a `"responses"` key; the items of a chunk whose retries were
exhausted (or whose payload lacked `"responses"`) are dropped — nothing
is appended for them (lines 944-947 only log) — and processing continues
with the subsequent chunks. -/
theorem get_pricing_data_batch_results {β : Type}
    (enrich : β → PriceFields → PriceFields) (asins : List String)
    (batchSize : Nat) (outcome : Nat → ChunkOutcome β) :
    (getPricingDataBatch enrich asins batchSize outcome).map
        PricingResult.asin =
      (((asinBatches asins batchSize).enum).map fun p =>
        match outcome p.1 with
        | .failed => []
        | .success payload =>
          match payload.responses with
          | none => []
          | some _ => p.2).flatten := by
  rw [getPricingDataBatch, List.map_flatten, List.map_map]
  congr 1
  refine List.map_congr_left fun p _ => ?_
  rcases ho : outcome p.1 with _ | payload
  · simp [ho]
  · rcases payload with ⟨_ | rs⟩
    · simp [ho, parsePricingBatchResponse]
    · simp [ho, parsePricingBatchResponse, parsePricingCore_map_asin]

/-- C1 (counterexample): with items `["A", "B"]`, `batchSize = 1`, the
first chunk's retries exhausted and the second chunk succeeding, the
orchestrator returns 1 result, not 2, and item `"A"` has no result at
all — the failed chunk's items are dropped, not returned as
placeholders. -/
theorem get_pricing_data_batch_drops_failed_chunk :
    (getPricingDataBatch (fun (_ : Unit) f => f) ["A", "B"] 1
        (fun i => if i = 0 then .failed
          else .success ⟨some [⟨some 200, some ()⟩]⟩)).length = 1 ∧
    (getPricingDataBatch (fun (_ : Unit) f => f) ["A", "B"] 1
        (fun i => if i = 0 then .failed
          else .success ⟨some [⟨some 200, some ()⟩]⟩)).map
        PricingResult.asin = ["B"] := by
  have hb : asinBatches ["A", "B"] 1 = [["A"], ["B"]] := by
    simp [asinBatches, chunkList]
  constructor
  · rw [getPricingDataBatch, hb]
    rfl
  · rw [getPricingDataBatch, hb]
    rfl

/-! ## Credential refresh lifecycle (refresh_token_if_needed, lines 286-301) -/

/-- The in-memory credential state of `AmazonSPAPI`: the access token
(opaque, identified by a number) and the time it was obtained
(`self.token_timestamp`). -/
structure TokenState where
  accessToken : Nat
  tokenTimestamp : ℚ
  deriving Repr, DecidableEq

/-- Function `refresh_token_if_needed` (lines 286-301): compute
`elapsed_time = current_time - self.token_timestamp`; if it exceeds
`token_lifetime = 3300` seconds (55 min, i.e. the 60-minute token
lifetime minus a 5-minute safety margin), fetch a new token
(`get_access_token`, modelled by the environment-supplied `newToken`)
and stamp it with the current time; otherwise leave the state alone. -/
def refreshTokenIfNeeded (newToken : Nat) (now : ℚ) (s : TokenState) :
    TokenState :=
  if now - s.tokenTimestamp > 3300 then ⟨newToken, now⟩ else s

/-- C7: `refresh_token_if_needed` refreshes exactly when the elapsed time
since issuance strictly exceeds 3300 seconds, is the identity otherwise,
and is idempotent at a fixed instant: an immediately repeated call (no
elapsed time) performs no refresh and leaves the credential unchanged. -/
theorem refresh_token_if_needed_spec (newToken : Nat) (now : ℚ)
    (s : TokenState) :
    (now - s.tokenTimestamp > 3300 →
      refreshTokenIfNeeded newToken now s = ⟨newToken, now⟩) ∧
    (¬ now - s.tokenTimestamp > 3300 →
      refreshTokenIfNeeded newToken now s = s) ∧
    refreshTokenIfNeeded newToken now (refreshTokenIfNeeded newToken now s)
      = refreshTokenIfNeeded newToken now s := by
  refine ⟨fun h => by simp [refreshTokenIfNeeded, h],
    fun h => by simp [refreshTokenIfNeeded, h], ?_⟩
  by_cases h : now - s.tokenTimestamp > 3300
  · simp [refreshTokenIfNeeded, h]
  · simp [refreshTokenIfNeeded, h]

/-- Witness for C7 at a stale credential (issued at 0, checked at 4000)
and token id 7. -/
theorem refresh_token_if_needed_spec_witness :
    ((4000 : ℚ) - (⟨1, 0⟩ : TokenState).tokenTimestamp > 3300 →
      refreshTokenIfNeeded 7 4000 ⟨1, 0⟩ = ⟨7, 4000⟩) ∧
    (¬ (4000 : ℚ) - (⟨1, 0⟩ : TokenState).tokenTimestamp > 3300 →
      refreshTokenIfNeeded 7 4000 ⟨1, 0⟩ = ⟨1, 0⟩) ∧
    refreshTokenIfNeeded 7 4000 (refreshTokenIfNeeded 7 4000 ⟨1, 0⟩)
      = refreshTokenIfNeeded 7 4000 ⟨1, 0⟩ :=
  refresh_token_if_needed_spec 7 4000 ⟨1, 0⟩

/-! ## Keepa token-budget guard (_call_api, lines 151-239; get_product_data, lines 646-662) -/

/-- Observable events of one `_call_api` run. -/
inductive KEv where
  /-- read of `self.api.tokens_left` before the call (line 167) -/
  | readTokens (v : Int) : KEv
  /-- the network call `self.api.query(...)` (line 196) -/
  | query : KEv
  /-- `time.sleep(w)` before a timeout retry (line 229) -/
  | sleep (w : Nat) : KEv
  deriving Repr, DecidableEq

/-- Environment-scripted result of the `r`-th loop iteration: the quota
the provider reports before the call, and what `self.api.query` does if
it is reached. -/
inductive KQueryRes (π : Type) where
  /-- nonempty product list (line 214 truthy) -/
  | products (ps : π) : KQueryRes π
  /-- falsy result (line 217): warn and loop without sleeping -/
  | empty : KQueryRes π
  /-- exception whose text indicates a timeout (line 222) -/
  | timeoutExn : KQueryRes π
  /-- any other exception (line 232): return None at once -/
  | otherExn : KQueryRes π

/-- Function `BaseKeepaAPI._call_api` (lines 151-239): up to `MAX_RETRIES = 3`
iterations; each iteration first reads `tokens_left` and refuses —
returning `None` without calling `query` — when
`tokens_left < len(asin_list) or tokens_left <= 0` (line 175);
otherwise it performs the query; a timeout exception sleeps
`(retry+1)*5` seconds and retries (unless it was the final iteration),
any other exception returns `None` immediately, an empty result loops
without sleeping, and exhausting the loop returns `None` (line 239). -/
def keepaCallApi {π : Type} (asinCount : Nat)
    (tokensAt : Nat → Int) (queryRes : Nat → KQueryRes π) :
    Nat → Nat → List KEv × Option π
  | 0, _ => ([], none)
  | r + 1, retry =>
    let tl := tokensAt retry
    if tl < asinCount ∨ tl ≤ 0 then
      ([KEv.readTokens tl], none)
    else
      match queryRes retry with
      | .products ps => ([KEv.readTokens tl, KEv.query], some ps)
      | .empty =>
        let (t, o) := keepaCallApi asinCount tokensAt queryRes r (retry + 1)
        (KEv.readTokens tl :: KEv.query :: t, o)
      | .timeoutExn =>
        if r > 0 then
          let (t, o) := keepaCallApi asinCount tokensAt queryRes r (retry + 1)
          (KEv.readTokens tl :: KEv.query :: KEv.sleep ((retry + 1) * 5) :: t,
            o)
        else ([KEv.readTokens tl, KEv.query], none)
      | .otherExn => ([KEv.readTokens tl, KEv.query], none)

/-- Entry point of `_call_api` with `MAX_RETRIES = 3`. -/
def keepaCallApiRun {π : Type} (asinCount : Nat) (tokensAt : Nat → Int)
    (queryRes : Nat → KQueryRes π) : List KEv × Option π :=
  keepaCallApi asinCount tokensAt queryRes 3 0

/-- Function `ProductAnalyzer.get_product_data` (lines 646-662): call `_call_api`;
on `None` return an empty DataFrame at once; otherwise process the
products (the provider-specific enrichment loop of lines 664-700,
abstracted as `processProducts`). -/
def getProductData {π ρ : Type} (processProducts : π → List ρ)
    (asinCount : Nat) (tokensAt : Nat → Int)
    (queryRes : Nat → KQueryRes π) : List ρ :=
  match (keepaCallApiRun asinCount tokensAt queryRes).2 with
  | none => []
  | some ps => processProducts ps

/-- C2: if the provider-reported quota at the pre-call check satisfies
`tokens_left < len(asin_list)` or `tokens_left <= 0`, the run performs
no network call at all (the trace is the single quota read — no `query`,
no waiting, no retry), `_call_api` returns `None`, and
`get_product_data` aborts with an empty result. -/
theorem keepa_budget_guard_refuses {π ρ : Type}
    (processProducts : π → List ρ) (asinCount : Nat)
    (tokensAt : Nat → Int) (queryRes : Nat → KQueryRes π)
    (hrefuse : tokensAt 0 < asinCount ∨ tokensAt 0 ≤ 0) :
    (keepaCallApiRun asinCount tokensAt queryRes).1 =
      [KEv.readTokens (tokensAt 0)] ∧
    (keepaCallApiRun asinCount tokensAt queryRes).2 = none ∧
    getProductData processProducts asinCount tokensAt queryRes = [] := by
  have h : keepaCallApiRun asinCount tokensAt queryRes
      = ([KEv.readTokens (tokensAt 0)], none) := by
    rw [keepaCallApiRun, keepaCallApi]
    simp only [if_pos hrefuse]
  refine ⟨by rw [h], by rw [h], ?_⟩
  rw [getProductData, h]

/-- Witness for C2: 5 ASINs and only 3 tokens left. -/
theorem keepa_budget_guard_refuses_witness :
    ((3 : Int) < (5 : Nat) ∨ (3 : Int) ≤ 0) ∧
    ((keepaCallApiRun (π := Unit) 5 (fun _ => 3) (fun _ => .empty)).1 =
      [KEv.readTokens 3] ∧
    (keepaCallApiRun (π := Unit) 5 (fun _ => 3) (fun _ => .empty)).2 =
      none ∧
    getProductData (fun (_ : Unit) => ([] : List Unit)) 5 (fun _ => 3)
      (fun _ => .empty) = []) :=
  ⟨by norm_num,
    keepa_budget_guard_refuses (fun (_ : Unit) => ([] : List Unit)) 5
      (fun _ => 3) (fun _ => .empty) (by norm_num)⟩

/-! ## Retrying request executors

`AmazonSPAPI.make_request` (sp_api history file, lines 303-386) and
`BaseAPI.make_request` (base_api.py, lines 63-127), as trace-producing
functions over a scripted environment.  The staleness decision taken
inside `refresh_token_if_needed` depends on wall-clock time and is
supplied by the script (its rule is verified separately as
`refresh_token_if_needed_spec`); `time.sleep` durations are recorded as
events. -/

/-- Observable events of an executor run. -/
inductive Ev where
  /-- `self.refresh_token_if_needed()` (sp line 330) -/
  | credCheck : Ev
  /-- `refresh_token_if_needed` actually refreshed (sp lines 297-301) -/
  | refreshStale : Ev
  /-- `self.rate_limiter.wait_if_needed()` (sp line 333) or
      `self._wait_for_rate_limit()` (base line 71) -/
  | gate : Ev
  /-- the HTTP request of attempt `i` (sp line 336, base line 79) -/
  | dispatch (i : Nat) : Ev
  /-- `time.sleep(d)` of `d` seconds -/
  | sleep (d : Nat) : Ev
  /-- the 403-expiry branch's `self.access_token = self.get_access_token()`
      (sp line 357) -/
  | refreshExpiry : Ev
  deriving Repr, DecidableEq

/-- An HTTP response as the executor inspects it: status code, optional
integer `Retry-After` header, whether the body text contains
`"expired"` or `"Unauthorized"` (sp line 355), and an opaque decoded
JSON payload. -/
structure HttpResp where
  status : Nat
  retryAfter : Option Nat
  bodyExpiry : Bool
  body : Nat
  deriving Repr, DecidableEq

/-- What one dispatched attempt yields: a response, or an exception from
the transport. -/
inductive AttemptRes where
  | resp (r : HttpResp) : AttemptRes
  | exn : AttemptRes
  deriving Repr, DecidableEq

/-- The scripted environment for one attempt of
`AmazonSPAPI.make_request`: whether `refresh_token_if_needed` finds the
token stale at that moment, and the attempt's transport result. -/
structure SpAttempt where
  stale : Bool
  res : AttemptRes
  deriving Repr, DecidableEq

/-- Terminal outcome of `AmazonSPAPI.make_request`. -/
inductive SpOutcome where
  /-- `return response.json()` (line 374) -/
  | success (body : Nat) : SpOutcome
  /-- `return None` (line 371 or line 386) -/
  | failure : SpOutcome
  /-- `raise` at the last attempt of the exception handler (line 384) -/
  | raised : SpOutcome
  deriving Repr, DecidableEq

/-- The events at the head of every loop iteration of
`AmazonSPAPI.make_request` (lines 329-342): the token check (refreshing
if stale), the rate-limit gate, then the dispatch. -/
def attemptHead (stale : Bool) (i : Nat) : List Ev :=
  Ev.credCheck :: (if stale then [Ev.refreshStale] else []) ++
    [Ev.gate, Ev.dispatch i]

/-- The retry loop of `AmazonSPAPI.make_request` (lines 327-386) with
`remaining` iterations left and `i` the current 0-based attempt index:
per-attempt event blocks plus the terminal outcome.  Branches, in source
order: 429 sleeps `Retry-After` if present, else `base_delay * 2**attempt`,
and continues (lines 344-350); 403 with an expiry body refreshes the
token, sleeps `base_delay`, and continues (lines 352-361); any other
non-200 sleeps `base_delay * 2**attempt` and continues unless it is the
final attempt, which returns `None` (lines 363-371); 200 returns the
decoded body (line 374); an exception sleeps `base_delay * 2**attempt`
and continues unless it is the final attempt, which re-raises
(lines 376-384); a loop that exhausts all attempts returns `None`
(line 386). -/
def spGo (bd : Nat) (script : Nat → SpAttempt) :
    Nat → Nat → List (List Ev) × SpOutcome
  | 0, _ => ([], .failure)
  | r + 1, i =>
    let a := script i
    match a.res with
    | .exn =>
      if r > 0 then
        let rest := spGo bd script r (i + 1)
        ((attemptHead a.stale i ++ [Ev.sleep (bd * 2 ^ i)]) :: rest.1,
          rest.2)
      else ([attemptHead a.stale i], .raised)
    | .resp h =>
      if h.status = 429 then
        let rest := spGo bd script r (i + 1)
        ((attemptHead a.stale i ++
          [Ev.sleep (h.retryAfter.getD (bd * 2 ^ i))]) :: rest.1, rest.2)
      else if h.status = 403 ∧ h.bodyExpiry then
        let rest := spGo bd script r (i + 1)
        ((attemptHead a.stale i ++ [Ev.refreshExpiry, Ev.sleep bd]) ::
          rest.1, rest.2)
      else if h.status ≠ 200 then
        if r > 0 then
          let rest := spGo bd script r (i + 1)
          ((attemptHead a.stale i ++ [Ev.sleep (bd * 2 ^ i)]) :: rest.1,
            rest.2)
        else ([attemptHead a.stale i], .failure)
      else ([attemptHead a.stale i], .success h.body)

/-- Entry point of `AmazonSPAPI.make_request` with `max_retries` attempts and
`base_delay` seconds (defaults 5 and 2): the per-attempt event blocks
and the outcome. -/
def spMakeRequest (maxRetries bd : Nat) (script : Nat → SpAttempt) :
    List (List Ev) × SpOutcome :=
  spGo bd script maxRetries 0

/-- The flat event trace of `AmazonSPAPI.make_request`. -/
def spTrace (maxRetries bd : Nat) (script : Nat → SpAttempt) : List Ev :=
  (spMakeRequest maxRetries bd script).1.flatten

/-- Scripted result of one dispatched attempt of `BaseAPI.make_request`:
a 2xx response decoded to JSON (`ok`), an HTTP error raised by
`raise_for_status` (4xx/5xx, carrying the status code and optional
`Retry-After` header read in the handler at line 103), or a non-HTTP
`RequestException`. -/
inductive BRes where
  | ok (body : Nat) : BRes
  | httpErr (status : Nat) (retryAfter : Option Nat) : BRes
  | exn : BRes
  deriving Repr, DecidableEq

/-- The retry loop of `BaseAPI.make_request` (lines 73-127) with
`remaining` iterations left and `i` the current 0-based attempt index.
Branches, in source order: a 429 sleeps the `Retry-After` header value
(defaulting to the flat `retry_delay`, line 103 — not the exponential
backoff) and continues regardless of the attempt number (lines 100-106);
any other HTTP error sleeps `retry_delay * 2**attempt` and continues
unless it is the final attempt, which re-raises (lines 108-116); a
`RequestException` does the same (lines 118-127); success returns the
decoded JSON (line 98); when every iteration hit the 429 branch the
`for` loop is exhausted and the function falls off its end, implicitly
returning `None`. -/
def baseGo (rd : Nat) (script : Nat → BRes) :
    Nat → Nat → List Ev × SpOutcome
  | 0, _ => ([], .failure)
  | r + 1, i =>
    match script i with
    | .ok body => ([Ev.dispatch i], .success body)
    | .httpErr status retryAfter =>
      if status = 429 then
        let rest := baseGo rd script r (i + 1)
        (Ev.dispatch i :: Ev.sleep (retryAfter.getD rd) :: rest.1, rest.2)
      else if r > 0 then
        let rest := baseGo rd script r (i + 1)
        (Ev.dispatch i :: Ev.sleep (rd * 2 ^ i) :: rest.1, rest.2)
      else ([Ev.dispatch i], .raised)
    | .exn =>
      if r > 0 then
        let rest := baseGo rd script r (i + 1)
        (Ev.dispatch i :: Ev.sleep (rd * 2 ^ i) :: rest.1, rest.2)
      else ([Ev.dispatch i], .raised)

/-- Entry point of `BaseAPI.make_request` with `max_retries` attempts and `retry_delay`
seconds (defaults 3 and 2): `self._wait_for_rate_limit()` is called once,
before the loop (line 71), and no credential check exists in this class. -/
def baseMakeRequest (maxRetries rd : Nat) (script : Nat → BRes) :
    List Ev × SpOutcome :=
  let rest := baseGo rd script maxRetries 0
  (Ev.gate :: rest.1, rest.2)

theorem baseGo_no_gate_no_credCheck (rd : Nat) (script : Nat → BRes) :
    ∀ r i, Ev.gate ∉ (baseGo rd script r i).1 ∧
      Ev.credCheck ∉ (baseGo rd script r i).1 := by
  intro r
  induction r with
  | zero => intro i; simp [baseGo]
  | succ r ih =>
    intro i
    rw [baseGo]
    rcases script i with body | ⟨status, retryAfter⟩ | _
    · simp
    · by_cases h429 : status = 429
      · simp only [h429, if_pos rfl]
        have := ih (i + 1)
        simp [this.1, this.2]
      · by_cases hr : r > 0
        · simp only [if_neg h429, if_pos hr]
          have := ih (i + 1)
          simp [this.1, this.2]
        · simp [if_neg h429, hr]
    · by_cases hr : r > 0
      · simp only [if_pos hr]
        have := ih (i + 1)
        simp [this.1, this.2]
      · simp [hr]

/-- C6 (counterexample): in `BaseAPI.make_request` with `max_retries = 2`
and a 500 followed by a success, the retry attempt (`dispatch 1`) is
dispatched although the whole run contains no credential-validity check
at all, and the rate-limit gate was called only once, before the first
attempt — the event before the retry dispatch is the backoff sleep, not
the gate. -/
theorem base_make_request_skips_gating :
    (baseMakeRequest 2 2 (fun i => if i = 0 then BRes.httpErr 500 none
        else BRes.ok 7)).1 =
      [Ev.gate, Ev.dispatch 0, Ev.sleep 2, Ev.dispatch 1] ∧
    Ev.dispatch 1 ∈ (baseMakeRequest 2 2
      (fun i => if i = 0 then BRes.httpErr 500 none else BRes.ok 7)).1 ∧
    Ev.credCheck ∉ (baseMakeRequest 2 2
      (fun i => if i = 0 then BRes.httpErr 500 none else BRes.ok 7)).1 ∧
    (baseMakeRequest 2 2 (fun i => if i = 0 then BRes.httpErr 500 none
        else BRes.ok 7)).1.count Ev.gate = 1 := by
  refine ⟨rfl, by decide, by decide, by decide⟩

/-- C6 (amended): in `AmazonSPAPI.make_request` every dispatched attempt
— retries included — is immediately preceded by the rate-limiter gate,
which is preceded by the credential-validity check (refreshing when
stale), and no dispatch occurs outside such a block head; in
`BaseAPI.make_request`, by contrast, the rate gate runs exactly once,
before the first attempt, and no credential check exists on any path. -/
theorem executors_gating (mr bd rd : Nat) (spScript : Nat → SpAttempt)
    (baseScript : Nat → BRes) :
    (∀ b ∈ (spMakeRequest mr bd spScript).1, ∃ s i t,
      b = attemptHead s i ++ t ∧ ∀ j, Ev.dispatch j ∉ t) ∧
    (baseMakeRequest mr rd baseScript).1.count Ev.gate = 1 ∧
    Ev.credCheck ∉ (baseMakeRequest mr rd baseScript).1 := by
  refine ⟨?_, ?_, ?_⟩
  · rw [spMakeRequest]
    generalize 0 = i
    induction mr generalizing i with
    | zero => simp [spGo]
    | succ r ih =>
      intro b hb
      rw [spGo] at hb
      rcases hres : (spScript i).res with h | _
      all_goals simp only [hres] at hb
      case exn =>
        by_cases hr : r > 0
        · simp only [if_pos hr, List.mem_cons] at hb
          rcases hb with rfl | hb
          · exact ⟨(spScript i).stale, i, [Ev.sleep (bd * 2 ^ i)], rfl,
              by simp⟩
          · exact ih (i + 1) b hb
        · simp only [if_neg hr, List.mem_singleton] at hb
          exact ⟨(spScript i).stale, i, [], by simp [hb], by simp⟩
      case resp =>
        by_cases h429 : h.status = 429
        · simp only [if_pos h429, List.mem_cons] at hb
          rcases hb with rfl | hb
          · exact ⟨(spScript i).stale, i,
              [Ev.sleep (h.retryAfter.getD (bd * 2 ^ i))], rfl, by simp⟩
          · exact ih (i + 1) b hb
        · by_cases h403 : h.status = 403 ∧ h.bodyExpiry
          · simp only [if_neg h429, if_pos h403, List.mem_cons] at hb
            rcases hb with rfl | hb
            · exact ⟨(spScript i).stale, i,
                [Ev.refreshExpiry, Ev.sleep bd], rfl, by simp⟩
            · exact ih (i + 1) b hb
          · by_cases h200 : h.status = 200
            · simp only [if_neg h429, if_neg h403, h200, ne_eq,
                not_true_eq_false, if_false] at hb
              simp at hb
              exact ⟨(spScript i).stale, i, [], by simp [hb], by simp⟩
            · by_cases hr : r > 0
              · simp only [if_neg h429, if_neg h403, ne_eq, h200,
                  not_false_eq_true, if_true, if_pos hr,
                  List.mem_cons] at hb
                rcases hb with rfl | hb
                · exact ⟨(spScript i).stale, i, [Ev.sleep (bd * 2 ^ i)],
                    rfl, by simp⟩
                · exact ih (i + 1) b hb
              · simp only [if_neg h429, if_neg h403, ne_eq, h200,
                  not_false_eq_true, if_true, if_neg hr,
                  List.mem_singleton] at hb
                exact ⟨(spScript i).stale, i, [], by simp [hb], by simp⟩
  · rw [baseMakeRequest]
    have := baseGo_no_gate_no_credCheck rd baseScript mr 0
    simp [List.count_cons, List.count_eq_zero.mpr this.1]
  · rw [baseMakeRequest]
    have := baseGo_no_gate_no_credCheck rd baseScript mr 0
    simp [this.2]

/-- Witness for C6 (amended) at `max_retries = 1`, a directly successful
attempt, and the concrete block `attemptHead false 0`. -/
theorem executors_gating_witness :
    attemptHead false 0 ∈ (spMakeRequest 1 2 (fun _ =>
      ⟨false, .resp ⟨200, none, false, 9⟩⟩)).1 ∧
    (∃ s i t, attemptHead false 0 = attemptHead s i ++ t ∧
      ∀ j, Ev.dispatch j ∉ t) ∧
    (baseMakeRequest 1 2 (fun _ => BRes.ok 9)).1.count Ev.gate = 1 ∧
    Ev.credCheck ∉ (baseMakeRequest 1 2 (fun _ => BRes.ok 9)).1 :=
  ⟨by decide,
    (executors_gating 1 2 2 (fun _ => ⟨false, .resp ⟨200, none, false, 9⟩⟩)
      (fun _ => BRes.ok 9)).1 (attemptHead false 0) (by decide),
    (executors_gating 1 2 2 (fun _ => ⟨false, .resp ⟨200, none, false, 9⟩⟩)
      (fun _ => BRes.ok 9)).2.1,
    (executors_gating 1 2 2 (fun _ => ⟨false, .resp ⟨200, none, false, 9⟩⟩)
      (fun _ => BRes.ok 9)).2.2⟩

/-- C4 (counterexample): with `max_retries = 1`, a single 429 response
(carrying `Retry-After: 5`) makes `AmazonSPAPI.make_request` sleep the
5 seconds, exhaust the loop, and return `None` — the permanent failure
of the call, and hence of every item of the chunk, is caused by the 429
alone, so a 429 does count toward permanent item failure (it consumes a
retry attempt like any other retryable error). -/
theorem sp_429_counts_toward_failure :
    (spMakeRequest 1 2 (fun _ => ⟨false, .resp ⟨429, some 5, false, 0⟩⟩)).2
      = .failure ∧
    spTrace 1 2 (fun _ => ⟨false, .resp ⟨429, some 5, false, 0⟩⟩) =
      [Ev.credCheck, Ev.gate, Ev.dispatch 0, Ev.sleep 5] := by
  exact ⟨rfl, rfl⟩

/-- An attempt scripted to yield a 429 response. -/
def is429 (a : SpAttempt) : Prop :=
  ∃ h, a.res = .resp h ∧ h.status = 429

/-- C4 (amended): on a 429 the executor sleeps exactly the `Retry-After`
header value before the next attempt whenever the header is present —
the header always takes precedence over the computed exponential
backoff, which is used only when the header is absent — and then simply
continues with the next attempt; but the 429 consumes a retry attempt
like any other retryable error, so a script in which every attempt
yields a 429 ends with the executor returning `None` (failure). -/
theorem sp_429_retry_after (bd : Nat) (script : Nat → SpAttempt) :
    (∀ r i st h v, script i = ⟨st, .resp h⟩ → h.status = 429 →
      h.retryAfter = some v →
      spGo bd script (r + 1) i =
        ((attemptHead st i ++ [Ev.sleep v]) ::
          (spGo bd script r (i + 1)).1, (spGo bd script r (i + 1)).2)) ∧
    (∀ r i st h, script i = ⟨st, .resp h⟩ → h.status = 429 →
      h.retryAfter = none →
      spGo bd script (r + 1) i =
        ((attemptHead st i ++ [Ev.sleep (bd * 2 ^ i)]) ::
          (spGo bd script r (i + 1)).1, (spGo bd script r (i + 1)).2)) ∧
    (∀ mr, (∀ i, i < mr → is429 (script i)) →
      (spMakeRequest mr bd script).2 = .failure) := by
  refine ⟨?_, ?_, ?_⟩
  · intro r i st h v hs h429 hra
    rw [spGo, hs]
    simp [h429, hra]
  · intro r i st h hs h429 hra
    rw [spGo, hs]
    simp [h429, hra]
  · have main : ∀ r i, (∀ k, i ≤ k → k < i + r → is429 (script k)) →
        (spGo bd script r i).2 = .failure := by
      intro r
      induction r with
      | zero => intro i _; rfl
      | succ r ih =>
        intro i hall
        obtain ⟨h, hres, h429⟩ := hall i (le_refl i) (by omega)
        rw [spGo, hres]
        simp only [h429, if_pos rfl]
        exact ih (i + 1) fun k hk1 hk2 => hall k (by omega) (by omega)
    intro mr hmr
    exact main mr 0 fun k _ hk => hmr k (by omega)

/-- Witness for C4 (amended): the step equations discharged at attempt 0
of an all-429 script (header present, and a header-free variant), plus
the all-429 failure at `max_retries = 2`. -/
theorem sp_429_retry_after_witness :
    spGo 2 (fun _ => ⟨false, .resp ⟨429, some 5, false, 0⟩⟩) (0 + 1) 0 =
      ((attemptHead false 0 ++ [Ev.sleep 5]) ::
        (spGo 2 (fun _ => ⟨false, .resp ⟨429, some 5, false, 0⟩⟩) 0
          (0 + 1)).1,
        (spGo 2 (fun _ => ⟨false, .resp ⟨429, some 5, false, 0⟩⟩) 0
          (0 + 1)).2) ∧
    spGo 2 (fun _ => ⟨false, .resp ⟨429, none, false, 0⟩⟩) (0 + 1) 0 =
      ((attemptHead false 0 ++ [Ev.sleep (2 * 2 ^ 0)]) ::
        (spGo 2 (fun _ => ⟨false, .resp ⟨429, none, false, 0⟩⟩) 0
          (0 + 1)).1,
        (spGo 2 (fun _ => ⟨false, .resp ⟨429, none, false, 0⟩⟩) 0
          (0 + 1)).2) ∧
    (spMakeRequest 2 2 (fun _ => ⟨false, .resp ⟨429, some 5, false, 0⟩⟩)).2
      = .failure :=
  ⟨(sp_429_retry_after 2
      (fun _ => ⟨false, .resp ⟨429, some 5, false, 0⟩⟩)).1 0 0 false
      ⟨429, some 5, false, 0⟩ 5 rfl rfl rfl,
    (sp_429_retry_after 2
      (fun _ => ⟨false, .resp ⟨429, none, false, 0⟩⟩)).2.1 0 0 false
      ⟨429, none, false, 0⟩ rfl rfl rfl,
    (sp_429_retry_after 2
      (fun _ => ⟨false, .resp ⟨429, some 5, false, 0⟩⟩)).2.2 2
      (fun _ _ => ⟨⟨429, some 5, false, 0⟩, rfl, rfl⟩)⟩

/-- C5 (counterexample): with two consecutive 403-expiry responses
followed by a 200, `AmazonSPAPI.make_request` performs a credential
refresh after EACH of the two 403s — two refreshes in total, since the
refresh condition (lines 353-355) tests only the current response and no
flag records that a refresh was already done — rather than taking the
normal retry/backoff path on the second 403. -/
theorem sp_403_refreshes_every_time :
    (spTrace 5 2 (fun i => if i < 2 then ⟨false, .resp ⟨403, none, true, 0⟩⟩
        else ⟨false, .resp ⟨200, none, false, 9⟩⟩)).count Ev.refreshExpiry
      = 2 ∧
    (spMakeRequest 5 2
        (fun i => if i < 2 then ⟨false, .resp ⟨403, none, true, 0⟩⟩
          else ⟨false, .resp ⟨200, none, false, 9⟩⟩)).2 = .success 9 := by
  exact ⟨rfl, rfl⟩

/-- C5 (amended): every attempt that receives a 403 whose body indicates
expiry/unauthorized performs exactly one credential refresh, updates the
header, sleeps `base_delay`, and continues with the next attempt — and
this holds unconditionally for each such attempt, so an immediately
following second 403-expiry triggers a second refresh (bounded only by
`max_retries`, since each 403 consumes an attempt) instead of the normal
backoff path without refresh. -/
theorem sp_403_refresh_step (bd : Nat) (script : Nat → SpAttempt) :
    ∀ r i st h, script i = ⟨st, .resp h⟩ → h.status = 403 →
      h.bodyExpiry = true →
      spGo bd script (r + 1) i =
        ((attemptHead st i ++ [Ev.refreshExpiry, Ev.sleep bd]) ::
          (spGo bd script r (i + 1)).1, (spGo bd script r (i + 1)).2) ∧
      (attemptHead st i ++
        [Ev.refreshExpiry, Ev.sleep bd]).count Ev.refreshExpiry = 1 := by
  intro r i st h hs h403 hexp
  constructor
  · rw [spGo, hs]
    simp [h403, hexp]
  · rcases st <;> simp [attemptHead, List.count_cons, List.count_append]

/-- Witness for C5 (amended) at a constant 403-expiry script. -/
theorem sp_403_refresh_step_witness :
    spGo 2 (fun _ => ⟨false, .resp ⟨403, none, true, 0⟩⟩) (0 + 1) 0 =
      ((attemptHead false 0 ++ [Ev.refreshExpiry, Ev.sleep 2]) ::
        (spGo 2 (fun _ => ⟨false, .resp ⟨403, none, true, 0⟩⟩) 0 (0 + 1)).1,
        (spGo 2 (fun _ => ⟨false, .resp ⟨403, none, true, 0⟩⟩) 0
          (0 + 1)).2) ∧
    (attemptHead false 0 ++
      [Ev.refreshExpiry, Ev.sleep 2]).count Ev.refreshExpiry = 1 :=
  sp_403_refresh_step 2 (fun _ => ⟨false, .resp ⟨403, none, true, 0⟩⟩)
    0 0 false ⟨403, none, true, 0⟩ rfl rfl rfl

/-- C9: both executors can terminate by returning `None` (here
`SpOutcome.failure`) without raising: `BaseAPI.make_request` does so
whenever every loop iteration takes the 429 branch (the `for` loop is
exhausted by `continue` and control falls off the function's end), and
`AmazonSPAPI.make_request` returns `None` explicitly when a non-2xx
status other than a resolved 429/403-expiry persists at the final
attempt — so callers must handle `None` besides a dict or an
exception. -/
theorem make_request_returns_none (rd bd : Nat)
    (baseScript : Nat → BRes) (spScript : Nat → SpAttempt) :
    (∀ mr, (∀ k, k < mr → ∃ ra, baseScript k = BRes.httpErr 429 ra) →
      (baseMakeRequest mr rd baseScript).2 = .failure) ∧
    (∀ mr st h, 0 < mr →
      (∀ k, k + 1 < mr → (spScript k).res = .exn ∨
        ∃ h2, (spScript k).res = .resp h2 ∧ h2.status ≠ 200) →
      spScript (mr - 1) = ⟨st, .resp h⟩ →
      h.status ≠ 200 → h.status ≠ 429 →
      ¬ (h.status = 403 ∧ h.bodyExpiry) →
      (spMakeRequest mr bd spScript).2 = .failure) := by
  constructor
  · have main : ∀ r i,
        (∀ k, i ≤ k → k < i + r → ∃ ra, baseScript k = BRes.httpErr 429 ra)
        → (baseGo rd baseScript r i).2 = .failure := by
      intro r
      induction r with
      | zero => intro i _; rfl
      | succ r ih =>
        intro i hall
        obtain ⟨ra, hra⟩ := hall i (le_refl i) (by omega)
        rw [baseGo, hra]
        simp only [if_pos rfl]
        exact ih (i + 1) fun k hk1 hk2 => hall k (by omega) (by omega)
    intro mr hmr
    rw [baseMakeRequest]
    exact main mr 0 fun k _ hk => hmr k (by omega)
  · have main : ∀ r i st h, 0 < r →
        (∀ k, i ≤ k → k + 1 < i + r → (spScript k).res = .exn ∨
          ∃ h2, (spScript k).res = .resp h2 ∧ h2.status ≠ 200) →
        spScript (i + r - 1) = ⟨st, .resp h⟩ →
        h.status ≠ 200 → h.status ≠ 429 →
        ¬ (h.status = 403 ∧ h.bodyExpiry) →
        (spGo bd spScript r i).2 = .failure := by
      intro r
      induction r with
      | zero => intro i st h h0; omega
      | succ r ih =>
        intro i st h _ hmid hfin h200 h429 h403
        cases hr : r with
        | zero =>
          subst hr
          have hfin' : spScript i = ⟨st, .resp h⟩ := by
            simpa using hfin
          rw [spGo, hfin']
          simp [h429, h403, h200]
        | succ r2 =>
          subst hr
          have hfirst := hmid i (le_refl i) (by omega)
          rw [spGo]
          rcases hfr : (spScript i).res with h2 | _
          · -- a response at a non-final attempt, necessarily non-200
            have hs2 : h2.status ≠ 200 := by
              rcases hfirst with hexn | ⟨h3, hr3, hs3⟩
              · rw [hfr] at hexn; exact absurd hexn (by simp)
              · rw [hfr] at hr3
                injection hr3 with hr3
                exact hr3 ▸ hs3
            have hrest : (spGo bd spScript (r2 + 1) (i + 1)).2 =
                .failure := by
              refine ih (i + 1) st h (by omega) ?_ ?_ h200 h429 h403
              · intro k hk1 hk2
                exact hmid k (by omega) (by omega)
              · have : i + 1 + (r2 + 1) - 1 = i + (r2 + 1 + 1) - 1 := by
                  omega
                rw [this]
                exact hfin
            by_cases h4292 : h2.status = 429
            · simp [h4292, hrest]
            · by_cases h4032 : h2.status = 403 ∧ h2.bodyExpiry
              · simp [h4292, h4032, hrest]
              · simp [h4292, h4032, hs2, hrest]
          · have hrest : (spGo bd spScript (r2 + 1) (i + 1)).2 =
                .failure := by
              refine ih (i + 1) st h (by omega) ?_ ?_ h200 h429 h403
              · intro k hk1 hk2
                exact hmid k (by omega) (by omega)
              · have : i + 1 + (r2 + 1) - 1 = i + (r2 + 1 + 1) - 1 := by
                  omega
                rw [this]
                exact hfin
            simp [hrest]
    intro mr st h h0 hmid hfin h200 h429 h403
    rw [spMakeRequest]
    exact main mr 0 st h h0 (fun k hk1 hk2 => hmid k (by omega))
      (by simpa using hfin) h200 h429 h403

/-- Witness for C9: two all-429 iterations for the base executor, and a
500 persisting at the final attempt for the SP executor. -/
theorem make_request_returns_none_witness :
    ((∀ k, k < 2 → ∃ ra, (fun _ => BRes.httpErr 429 none) k =
        BRes.httpErr 429 ra) →
      (baseMakeRequest 2 2 (fun _ => BRes.httpErr 429 none)).2 =
        .failure) ∧
    ((baseMakeRequest 2 2 (fun _ => BRes.httpErr 429 none)).2 =
      .failure) ∧
    (spMakeRequest 2 2 (fun _ => ⟨false, .resp ⟨500, none, false, 0⟩⟩)).2
      = .failure := by
  have h := make_request_returns_none 2 2
    (fun _ => BRes.httpErr 429 none)
    (fun _ => ⟨false, .resp ⟨500, none, false, 0⟩⟩)
  refine ⟨fun hc => h.1 2 hc, h.1 2 (fun k _ => ⟨none, rfl⟩), ?_⟩
  refine h.2 2 false ⟨500, none, false, 0⟩ (by omega) ?_ rfl
    (by decide) (by decide) (by decide)
  intro k _
  exact Or.inr ⟨⟨500, none, false, 0⟩, rfl, by decide⟩

/-! ## Sliding-window rate limiter (EnhancedAPIRateLimiter, lines 45-87)

Time is a rational; `time.sleep(w)` is modelled as advancing the clock by
exactly `w`.  One `wait_if_needed` call takes the arrival time `now` and
returns the updated limiter plus the recorded (post-wait) timestamp. -/

/-- State of `EnhancedAPIRateLimiter`: the configured
`requests_per_second` and the recorded `last_request_times`, oldest
first. -/
structure RateLimiter where
  requestsPerSecond : ℚ
  times : List ℚ
  deriving Repr, DecidableEq

/-- Field `self.min_interval = 1.0 / requests_per_second` (line 53). -/
def RateLimiter.minInterval (rl : RateLimiter) : ℚ :=
  1 / rl.requestsPerSecond

/-- Field `self.window_size = int(requests_per_second * 2)` (line 55) —
truncation (floor, for a nonnegative rate) of TWICE the rate, not
`ceil(requestsPerSecond * 1.0)`. -/
def RateLimiter.windowSize (rl : RateLimiter) : Nat :=
  (⌊rl.requestsPerSecond * 2⌋).toNat

/-- The purge loop of lines 67-68: pop from the front while the oldest
entry is strictly more than 1 second old. -/
def purgeOld (now : ℚ) (ts : List ℚ) : List ℚ :=
  ts.dropWhile fun t => decide (now - t > 1)

/-- The capacity wait of lines 71-77: if the purged window still holds
`window_size` entries, sleep until the oldest is a full second old
(`wait = 1.0 - (now - oldest)` when positive), i.e. the clock becomes
`oldest + 1`.  (When `window_size = 0` and the purged list is empty,
line 73 of the Python would raise `IndexError`; the model returns `now`
there — the case is unreachable for `requests_per_second ≥ 0.5`.) -/
def capacityAdjusted (rl : RateLimiter) (now : ℚ) (ts : List ℚ) : ℚ :=
  if ts.length ≥ rl.windowSize then
    match ts.head? with
    | some oldest => if 1 - (now - oldest) > 0 then oldest + 1 else now
    | none => now
  else now

/-- The timestamp recorded by `wait_if_needed` (appended at line 86 and
returned at line 87): the post-purge clock after the capacity wait and
then the minimum-interval wait of lines 80-83. -/
def recordedTime (rl : RateLimiter) (now : ℚ) : ℚ :=
  let ts := purgeOld now rl.times
  let now1 := capacityAdjusted rl now ts
  match ts.getLast? with
  | some last =>
    if now1 - last < rl.minInterval then last + rl.minInterval else now1
  | none => now1

/-- Function `wait_if_needed` (lines 57-87): purge, wait as needed, then record
and return the current time. -/
def waitIfNeeded (rl : RateLimiter) (now : ℚ) : RateLimiter × ℚ :=
  (⟨rl.requestsPerSecond, purgeOld now rl.times ++ [recordedTime rl now]⟩,
    recordedTime rl now)

/-- A sequence of `wait_if_needed` calls at the given arrival times. -/
def acquireSeq (rl : RateLimiter) : List ℚ → RateLimiter
  | [] => rl
  | now :: rest => acquireSeq (waitIfNeeded rl now).1 rest

/-- Consecutive entries of `l` are at least `m` apart. -/
def GapChain (m : ℚ) (l : List ℚ) : Prop :=
  l.Chain' fun a b => a + m ≤ b

/-- C3 (counterexample): with `requests_per_second = 2` (so the claim's
`capacity = ceil(2 * 1.0) = 2`) and three back-to-back `acquire` calls,
the recorded timestamps are `0, 1/2, 1` — three timestamps inside the
single 1.0-second window `[0, 1]`, and a stored window of length `3 >
2`; the code's actual capacity constant is `int(2 * 2) = 4`, not
`ceil(2 * 1.0) = 2`. -/
theorem rate_limiter_capacity_exceeded :
    (acquireSeq ⟨2, []⟩ [0, 0, 1/2]).times = [0, 1/2, 1] ∧
    ((acquireSeq ⟨2, []⟩ [0, 0, 1/2]).times.countP
      fun t => decide ((0 : ℚ) ≤ t ∧ t ≤ 1)) = 3 ∧
    (⌈(2 : ℚ) * 1⌉).toNat = 2 ∧
    (RateLimiter.windowSize ⟨2, []⟩) = 4 := by
  have h1 : waitIfNeeded ⟨2, []⟩ 0 = (⟨2, [0]⟩, 0) := by
    norm_num [waitIfNeeded, recordedTime, capacityAdjusted, purgeOld,
      RateLimiter.windowSize, RateLimiter.minInterval]
  have h2 : waitIfNeeded ⟨2, [0]⟩ 0 = (⟨2, [0, 1/2]⟩, 1/2) := by
    norm_num [waitIfNeeded, recordedTime, capacityAdjusted, purgeOld,
      RateLimiter.windowSize, RateLimiter.minInterval]
  have h3 : waitIfNeeded ⟨2, [0, 1/2]⟩ (1/2) = (⟨2, [0, 1/2, 1]⟩, 1) := by
    norm_num [waitIfNeeded, recordedTime, capacityAdjusted, purgeOld,
      RateLimiter.windowSize, RateLimiter.minInterval]
  have hseq : (acquireSeq ⟨2, []⟩ [0, 0, 1/2]).times = [0, 1/2, 1] := by
    rw [acquireSeq, h1, acquireSeq, h2, acquireSeq, h3, acquireSeq]
  refine ⟨hseq, ?_, ?_, ?_⟩
  · rw [hseq]
    norm_num [List.countP, List.countP.go]
  · norm_num
    rfl
  · norm_num [RateLimiter.windowSize]
    rfl

theorem chain'_dropWhile {R : ℚ → ℚ → Prop} (p : ℚ → Bool) :
    ∀ l : List ℚ, l.Chain' R → (l.dropWhile p).Chain' R
  | [], _ => by simp [List.dropWhile]
  | a :: l, h => by
    rw [List.dropWhile]
    cases hp : p a
    · simpa using h
    · exact chain'_dropWhile p l h.tail

theorem waitIfNeeded_times (rl : RateLimiter) (now : ℚ) :
    ((waitIfNeeded rl now).1).times =
      purgeOld now rl.times ++ [(waitIfNeeded rl now).2] := rfl

theorem waitIfNeeded_rps (rl : RateLimiter) (now : ℚ) :
    ((waitIfNeeded rl now).1).requestsPerSecond =
      rl.requestsPerSecond := rfl

theorem waitIfNeeded_snd_ge (rl : RateLimiter) (now last : ℚ)
    (hlast : (purgeOld now rl.times).getLast? = some last) :
    last + rl.minInterval ≤ (waitIfNeeded rl now).2 := by
  show last + rl.minInterval ≤ recordedTime rl now
  rw [recordedTime]
  simp only [hlast]
  split
  · exact le_refl _
  · linarith [not_lt.mp (by assumption)]

theorem waitIfNeeded_gap (rl : RateLimiter) (now : ℚ)
    (h : GapChain rl.minInterval rl.times) :
    GapChain rl.minInterval ((waitIfNeeded rl now).1).times := by
  rw [GapChain, waitIfNeeded_times, List.chain'_append]
  refine ⟨chain'_dropWhile _ rl.times h, List.chain'_singleton _, ?_⟩
  intro x hx y hy
  simp only [List.head?_cons, Option.mem_def, Option.some.injEq] at hy
  subst hy
  exact waitIfNeeded_snd_ge rl now x (Option.mem_def.mp hx)

theorem acquireSeq_rps (arrivals : List ℚ) :
    ∀ rl : RateLimiter,
      (acquireSeq rl arrivals).requestsPerSecond =
        rl.requestsPerSecond := by
  induction arrivals with
  | nil => intro rl; rfl
  | cons now rest ih =>
    intro rl
    rw [acquireSeq, ih, waitIfNeeded_rps]

theorem acquireSeq_gap (arrivals : List ℚ) :
    ∀ rl : RateLimiter, GapChain rl.minInterval rl.times →
      GapChain rl.minInterval ((acquireSeq rl arrivals).times) := by
  induction arrivals with
  | nil => intro rl h; exact h
  | cons now rest ih =>
    intro rl h
    rw [acquireSeq]
    have hmin : ((waitIfNeeded rl now).1).minInterval = rl.minInterval :=
      by rw [RateLimiter.minInterval, waitIfNeeded_rps]; rfl
    have := ih (waitIfNeeded rl now).1
      (by rw [hmin]; exact waitIfNeeded_gap rl now h)
    rwa [hmin] at this

theorem gapChain_head_le (m : ℚ) (hm : 0 ≤ m) :
    ∀ (l : List ℚ) (a : ℚ), GapChain m (a :: l) → ∀ u ∈ l, a ≤ u := by
  intro l
  induction l with
  | nil => intro a _ u hu; simp at hu
  | cons b t ih =>
    intro a h u hu
    rw [GapChain, List.chain'_cons] at h
    rcases List.mem_cons.mp hu with rfl | hu
    · linarith [h.1]
    · have hb := ih b h.2 u hu
      linarith [h.1]

theorem purgeOld_fresh (m : ℚ) (hm : 0 ≤ m) (now : ℚ) :
    ∀ l : List ℚ, GapChain m l → ∀ u ∈ purgeOld now l, now - u ≤ 1 := by
  intro l
  induction l with
  | nil => intro _ u hu; simp [purgeOld] at hu
  | cons a t ih =>
    intro h u hu
    rw [purgeOld, List.dropWhile] at hu
    rcases hp : decide (now - a > 1) with _ | _
    all_goals rw [hp] at hu
    · simp only at hu
      have ha : now - a ≤ 1 := by
        have := of_decide_eq_false hp
        linarith [not_lt.mp this]
      rcases List.mem_cons.mp hu with rfl | hu
      · exact ha
      · have := gapChain_head_le m hm t a h u hu
        linarith
    · exact ih h.tail u hu

theorem gapChain_head_getLast (m : ℚ) :
    ∀ (l : List ℚ), GapChain m l → ∀ a ∈ l.head?, ∀ b ∈ l.getLast?,
      a + ((l.length - 1 : ℕ) : ℚ) * m ≤ b := by
  intro l
  induction l with
  | nil => intro _ a ha; simp at ha
  | cons x t ih =>
    intro h a ha b hb
    simp only [List.head?_cons, Option.mem_def, Option.some.injEq] at ha
    subst ha
    cases t with
    | nil =>
      simp only [List.getLast?_singleton, Option.mem_def,
        Option.some.injEq] at hb
      subst hb
      simp
    | cons y t2 =>
      rw [GapChain, List.chain'_cons] at h
      have hyb := ih h.2 y (by simp) b
        (by rwa [List.getLast?_cons_cons] at hb)
      have hxy := h.1
      have hcast : (((x :: y :: t2).length - 1 : ℕ) : ℚ) =
          (((y :: t2).length - 1 : ℕ) : ℚ) + 1 := by
        simp only [List.length_cons]
        push_cast
        ring
      rw [hcast]
      have hm0 : 0 ≤ ((( y :: t2).length - 1 : ℕ) : ℚ) := by positivity
      nlinarith [hm0, hxy, hyb]

theorem gapChain_window_count (rps : ℚ) (hrps : 0 < rps) (l : List ℚ)
    (h : GapChain (1 / rps) l) (t : ℚ) :
    (l.countP fun x => decide (t ≤ x ∧ x ≤ t + 1)) ≤ (⌊rps⌋).toNat + 1 := by
  rw [List.countP_eq_length_filter]
  haveI : IsTrans ℚ (fun a b : ℚ => a + 1 / rps ≤ b) := by
    refine ⟨fun a b c hab hbc => ?_⟩
    have h0 : 0 ≤ 1 / rps := by positivity
    simp only at hab hbc ⊢
    linarith
  have hchain : GapChain (1 / rps)
      (l.filter fun x => decide (t ≤ x ∧ x ≤ t + 1)) :=
    List.Chain'.sublist h (List.filter_sublist l)
  cases hS : l.filter fun x => decide (t ≤ x ∧ x ≤ t + 1) with
  | nil => simp
  | cons a rest =>
    rw [hS] at hchain
    have hhead : (a :: rest).head? = some a := rfl
    obtain ⟨b, hlast⟩ : ∃ b, (a :: rest).getLast? = some b :=
      ⟨(a :: rest).getLast (by simp), List.getLast?_eq_getLast _ _⟩
    have hspan := gapChain_head_getLast (1 / rps) (a :: rest) hchain a
      hhead b hlast
    have hamem : a ∈ l.filter fun x => decide (t ≤ x ∧ x ≤ t + 1) := by
      rw [hS]; exact List.mem_cons_self a rest
    have hbmem : b ∈ l.filter fun x => decide (t ≤ x ∧ x ≤ t + 1) := by
      rw [hS]
      have := List.mem_getLast?_eq_getLast hlast
      obtain ⟨hne, rfl⟩ := this
      exact List.getLast_mem hne
    have hpa : t ≤ a ∧ a ≤ t + 1 := by
      have := List.of_mem_filter hamem
      exact of_decide_eq_true this
    have hpb : t ≤ b ∧ b ≤ t + 1 := by
      have := List.of_mem_filter hbmem
      exact of_decide_eq_true this
    -- span across the window: ((k-1)/rps) ≤ 1 hence k - 1 ≤ rps
    set k := (a :: rest).length with hk
    have hkpos : 1 ≤ k := by simp [hk]
    have hle : ((k - 1 : ℕ) : ℚ) * (1 / rps) ≤ 1 := by
      have : a + ((k - 1 : ℕ) : ℚ) * (1 / rps) ≤ b := hspan
      linarith [hpa.1, hpb.2]
    have hle2 : ((k - 1 : ℕ) : ℚ) ≤ rps := by
      have := mul_le_mul_of_nonneg_right hle (le_of_lt hrps)
      rw [one_mul] at this
      calc ((k - 1 : ℕ) : ℚ) = ((k - 1 : ℕ) : ℚ) * (1 / rps) * rps := by
            field_simp
        _ ≤ rps := this
    have hfloor : ((k - 1 : ℕ) : ℤ) ≤ ⌊rps⌋ := by
      rw [Int.le_floor]
      exact_mod_cast hle2
    have hfl0 : (0 : ℤ) ≤ ⌊rps⌋ := by
      rw [Int.le_floor]
      exact_mod_cast le_of_lt hrps
    omega

/-- C3 (amended): for any positive rate and any sequence of `acquire`
calls starting from a fresh limiter, (i) consecutive retained timestamps
are at least `minInterval = 1/requestsPerSecond` apart; (ii) at the
start of each call every retained timestamp strictly older than 1 second
is dropped before the capacity and interval decisions, so the purged
window only holds timestamps at most 1 second old; (iii) any closed
1.0-second window contains at most `⌊requestsPerSecond⌋ + 1` retained
timestamps — one more than the claimed `ceil(requestsPerSecond * 1.0)`
when the rate is integral — the code's stored-history threshold being
`int(2 * requestsPerSecond)`, not `ceil(requestsPerSecond * 1.0)`. -/
theorem rate_limiter_window_invariants (rps : ℚ) (hrps : 0 < rps)
    (arrivals : List ℚ) :
    GapChain (1 / rps) ((acquireSeq ⟨rps, []⟩ arrivals).times) ∧
    (∀ now u, u ∈ purgeOld now ((acquireSeq ⟨rps, []⟩ arrivals).times) →
      now - u ≤ 1) ∧
    (∀ t, (((acquireSeq ⟨rps, []⟩ arrivals).times).countP
      fun x => decide (t ≤ x ∧ x ≤ t + 1)) ≤ (⌊rps⌋).toNat + 1) := by
  have hmin : (⟨rps, []⟩ : RateLimiter).minInterval = 1 / rps := rfl
  have hgap : GapChain (1 / rps) ((acquireSeq ⟨rps, []⟩ arrivals).times) := by
    have := acquireSeq_gap arrivals ⟨rps, []⟩
      (by rw [hmin]; exact List.chain'_nil)
    rwa [hmin] at this
  have hm0 : (0 : ℚ) ≤ 1 / rps := by positivity
  refine ⟨hgap, ?_, ?_⟩
  · intro now u hu
    exact purgeOld_fresh (1 / rps) hm0 now _ hgap u hu
  · intro t
    exact gapChain_window_count rps hrps _ hgap t

/-- Witness for C3 (amended) at `requests_per_second = 2` and three
back-to-back calls. -/
theorem rate_limiter_window_invariants_witness :
    (0 : ℚ) < 2 ∧
    (GapChain (1 / 2) ((acquireSeq ⟨2, []⟩ [0, 0, 1/2]).times) ∧
    (∀ now u, u ∈ purgeOld now ((acquireSeq ⟨2, []⟩ [0, 0, 1/2]).times) →
      now - u ≤ 1) ∧
    (∀ t, (((acquireSeq ⟨2, []⟩ [0, 0, 1/2]).times).countP
      fun x => decide (t ≤ x ∧ x ≤ t + 1)) ≤ (⌊(2 : ℚ)⌋).toNat + 1)) :=
  ⟨by norm_num, rate_limiter_window_invariants 2 (by norm_num) [0, 0, 1/2]⟩
